import Mathlib

/-!
Verification of the feature/loss orchestration core of DeepDenoiser
(src/TensorFlow/DeepDenoiser.py), as a shallow embedding in Lean.

Tensors are modelled value-wise: a pixel/channel value is a real number,
a channel-indexed tensor is a list of values.  External collaborator
modules that are not part of this repository (Utilities, LossDifference,
FeatureEngineering, tf.image) are modelled from the spec, as noted on the
corresponding definitions.
-/

/- ===================== FeatureStandardization ===================== -/

/-- Modelled from the spec: the signed log1p transform provided by the
missing Utilities module ("signed log1p transform"): the sign of the input
is kept and log1p is applied to its magnitude. -/
noncomputable def signed_log1p (x : ℝ) : ℝ :=
  if x < 0 then -Real.log (1 - x) else Real.log (1 + x)

/-- Modelled from the spec: the signed expm1 transform provided by the
missing Utilities module ("signed expm1"), the inverse companion of
signed_log1p. -/
noncomputable def signed_expm1 (x : ℝ) : ℝ :=
  if x < 0 then -(Real.exp (-x) - 1) else Real.exp x - 1

/-- FeatureStandardization (DeepDenoiser.py lines 70-100): configuration of
the per-feature invertible normalization. -/
structure FeatureStandardization where
  use_log1p : Bool
  mean : ℝ
  variance : ℝ

/-- FeatureStandardization.use_mean (line 78): the mean step is active
exactly when the configured mean is nonzero. -/
def FeatureStandardization.use_mean (s : FeatureStandardization) : Prop :=
  s.mean ≠ 0

/-- FeatureStandardization.use_variance (line 81): the variance step is
active exactly when the configured variance is not one. -/
def FeatureStandardization.use_variance (s : FeatureStandardization) : Prop :=
  s.variance ≠ 1

/-- FeatureStandardization.standardize (lines 84-91): optional signed
log1p, then mean subtraction when mean is nonzero, then division by the
square root of the variance when the variance is not one. -/
noncomputable def FeatureStandardization.standardize
    (s : FeatureStandardization) (x : ℝ) : ℝ :=
  let x1 := if s.use_log1p then signed_log1p x else x
  let x2 := if s.mean ≠ 0 then x1 - s.mean else x1
  if s.variance ≠ 1 then x2 / Real.sqrt s.variance else x2

/-- FeatureStandardization.invert_standardize (lines 93-100): the same
three steps inverted, in reverse order. -/
noncomputable def FeatureStandardization.invert_standardize
    (s : FeatureStandardization) (x : ℝ) : ℝ :=
  let x1 := if s.variance ≠ 1 then x * Real.sqrt s.variance else x
  let x2 := if s.mean ≠ 0 then x1 + s.mean else x1
  if s.use_log1p then signed_expm1 x2 else x2

/- ===================== PredictionFeature ===================== -/

/-- FeatureVariance (DeepDenoiser.py lines 103-110), generic in the
tensor value type.  varFn models the external FeatureEngineering.variance
collaborator (with the relative_variance, compress_to_one_channel and
epsilon parameters folded into it), since FeatureEngineering is not part
of this repository; the configuration flags are kept as data. -/
structure FeatureVarianceM (α : Type) where
  use_variance : Bool
  relative_variance : Bool
  compute_before_standardization : Bool
  compress_to_one_channel : Bool
  varFn : α → α

/-- FeatureVariance.variance (DeepDenoiser.py lines 112-117): asserts
use_variance, then delegates to the variance engine. -/
def FeatureVarianceM.variance {α : Type} (fv : FeatureVarianceM α) (x : α) :
    Except String α :=
  if fv.use_variance then Except.ok (fv.varFn x)
  else Except.error "AssertionError: use_variance"

/-- One iteration of the variance loops of PredictionFeature.standardize
(DeepDenoiser.py lines 144-147 and 156-159): assert that the variance
list already has exactly index entries, then append the variance of
source[index]. -/
def vpStep {α : Type} (fv : FeatureVarianceM α) (source : List α)
    (var : List α) (index : ℕ) : Except String (List α) :=
  if var.length = index then
    match source[index]? with
    | some x => (fv.variance x).map (fun v => var ++ [v])
    | none => Except.error "IndexError: list index out of range"
  else Except.error "AssertionError: len(variance) == index"

/-- One variance pass of PredictionFeature.standardize
(DeepDenoiser.py lines 143-147 and 155-159): the loop body vpStep for
index in range(K). -/
def variancePass {α : Type} (fv : FeatureVarianceM α) (source : List α)
    (K : ℕ) (var0 : List α) : Except String (List α) :=
  (List.range K).foldlM (vpStep fv source) var0

/-- The standardization loop of PredictionFeature.standardize
(DeepDenoiser.py lines 151-153): source[index] is replaced by its
standardized value, for index in range(K); indexing past the end of the
list raises. -/
def standardizeLoop {α : Type} (f : α → α) : ℕ → List α → Except String (List α)
  | 0, src => Except.ok src
  | _ + 1, [] => Except.error "IndexError: list index out of range"
  | k + 1, x :: xs => (standardizeLoop f k xs).map (fun rest => f x :: rest)

/-- The mutable per-step state of a PredictionFeature: the source list set
by initialize_sources_from_dictionary together with the empty variance
list (DeepDenoiser.py lines 135-140), and the optional preserved raw
primary source. -/
structure PredictionFeatureState (α : Type) where
  source : List α
  variance : List α
  preserved_source : Option α
deriving DecidableEq

/-- The static configuration of a PredictionFeature
(DeepDenoiser.py lines 120-133).  feature_standardization is the
(nullable) per-source standardization function; it is carried abstractly
because the state machine is generic in the tensor value type (the
concrete real-valued standardization is FeatureStandardization above). -/
structure PredictionFeatureM (α : Type) where
  number_of_sources : ℕ
  preserve_source : Bool
  is_target : Bool
  feature_standardization : Option (α → α)
  feature_variance : FeatureVarianceM α
  number_of_channels : ℕ
  name : String

/-- PredictionFeature.standardize (DeepDenoiser.py lines 142-159): the
variance pass over raw sources when computed before standardization, the
snapshot of source[0] when preserve_source, the standardization of every
source, and the variance pass over standardized sources otherwise. -/
def PredictionFeatureM.standardize {α : Type} (pf : PredictionFeatureM α)
    (s : PredictionFeatureState α) :
    Except String (PredictionFeatureState α) :=
  (if pf.feature_variance.use_variance
      && pf.feature_variance.compute_before_standardization then
    variancePass pf.feature_variance s.source pf.number_of_sources s.variance
  else Except.ok s.variance).bind (fun variance1 =>
  (if pf.preserve_source then
    match s.source[0]? with
    | some x => Except.ok (some x)
    | none => Except.error "IndexError: list index out of range"
  else Except.ok s.preserved_source).bind (fun preserved1 =>
  (match pf.feature_standardization with
  | some f => standardizeLoop f pf.number_of_sources s.source
  | none => Except.ok s.source).bind (fun source1 =>
  (if pf.feature_variance.use_variance
      && !pf.feature_variance.compute_before_standardization then
    variancePass pf.feature_variance source1 pf.number_of_sources variance1
  else Except.ok variance1).bind (fun variance2 =>
  Except.ok ⟨source1, variance2, preserved1⟩))))

/- ===================== BaseTrainingFeature loss ===================== -/

/-- The six loss weights held by a BaseTrainingFeature
(DeepDenoiser.py lines 189-194). -/
structure LossWeights where
  mean_weight : ℝ
  variation_weight : ℝ
  ms_ssim_weight : ℝ
  masked_mean_weight : ℝ
  masked_variation_weight : ℝ
  masked_ms_ssim_weight : ℝ

/-- The six loss term computations called by BaseTrainingFeature.loss
(self.mean(), self.variation(), self.ms_ssim(), self.masked_mean(),
self.masked_variation(), self.masked_ms_ssim()).  Each is an Except value:
ok with the term's value when the computation succeeds, error when it
raises (the bodies delegate to external collaborators, e.g. LossDifference
and tf.image.ssim_multiscale, so they are carried abstractly; a term whose
weight is not positive is never inspected by loss, which models that it is
never evaluated). -/
structure LossTerms where
  mean : Except String ℝ
  variation : Except String ℝ
  ms_ssim : Except String ℝ
  masked_mean : Except String ℝ
  masked_variation : Except String ℝ
  masked_ms_ssim : Except String ℝ

/-- One conditional accumulation step of BaseTrainingFeature.loss
(e.g. line 297-298): when the weight is strictly positive the term is
evaluated and weight * term is added to the running result, otherwise the
running result is returned untouched and the term is not evaluated. -/
noncomputable def lossStep (r w : ℝ) (term : Except String ℝ) : Except String ℝ :=
  if 0 < w then term.map (fun v => r + w * v) else Except.ok r

/-- BaseTrainingFeature.loss (DeepDenoiser.py lines 294-310): result
starts at 0.0 and each of the six terms is added, weighted, only when its
weight is strictly positive. -/
noncomputable def BaseTrainingFeature.loss (w : LossWeights) (t : LossTerms) :
    Except String ℝ :=
  (lossStep 0.0 w.mean_weight t.mean).bind (fun r1 =>
  (lossStep r1 w.variation_weight t.variation).bind (fun r2 =>
  (lossStep r2 w.ms_ssim_weight t.ms_ssim).bind (fun r3 =>
  (lossStep r3 w.masked_mean_weight t.masked_mean).bind (fun r4 =>
  (lossStep r4 w.masked_variation_weight t.masked_variation).bind (fun r5 =>
  (lossStep r5 w.masked_ms_ssim_weight t.masked_ms_ssim).bind (fun r6 =>
  Except.ok r6))))))

/-- BaseTrainingFeature.masked_mean (DeepDenoiser.py lines 276-281): the
elementwise difference is multiplied by the mask, divided by mask_sum and
summed, guarded by the condition mask_sum > 0; otherwise the constant 0 is
returned.  The difference tensor (self.difference(), delegated to the
external LossDifference module) is passed in flattened form. -/
noncomputable def BaseTrainingFeature.masked_mean
    (difference mask : List ℝ) (mask_sum : ℝ) : ℝ :=
  if 0 < mask_sum then
    ((List.zipWith (fun d m => d * m) difference mask).map
      (fun v => v / mask_sum)).sum
  else 0

/-- BaseTrainingFeature.masked_ms_ssim (DeepDenoiser.py lines 290-291):
the body is a bare raise, independent of the receiver, so it is modelled
as the constant failing computation. -/
def BaseTrainingFeature.masked_ms_ssim : Except String ℝ :=
  Except.error "Not implemented"

/- ===================== Model assembly (combined architecture) ===================== -/

/-- The part of a PredictionFeature that the channel bookkeeping of
combined_features_model reads: whether the feature is a target and how
many channels it has (DeepDenoiser.py lines 120-133). -/
structure ModelPredictionFeature where
  is_target : Bool
  number_of_channels : ℕ

/-- The selection of output (target) prediction features performed by
model (DeepDenoiser.py lines 842-845): the target features, in original
declared order. -/
def output_prediction_features (fs : List ModelPredictionFeature) :
    List ModelPredictionFeature :=
  fs.filter (fun f => f.is_target)

/-- The backbone output channel width computed by combined_features_model
(DeepDenoiser.py lines 674-679): the accumulation over the output
prediction features of kernel_size squared under kernel prediction, of
the feature's channel count otherwise. -/
def combined_output_size (use_kernel_predicion : Bool) (kernel_size : ℕ)
    (outs : List ModelPredictionFeature) : ℕ :=
  outs.foldl
    (fun acc f =>
      if use_kernel_predicion then acc + kernel_size ^ 2
      else acc + f.number_of_channels) 0

/-- The size_splits list built by combined_features_model
(DeepDenoiser.py lines 703-708), one entry per output prediction feature
in order. -/
def combined_size_splits (use_kernel_predicion : Bool) (kernel_size : ℕ)
    (outs : List ModelPredictionFeature) : List ℕ :=
  outs.map
    (fun f =>
      if use_kernel_predicion then kernel_size ^ 2
      else f.number_of_channels)

/-- tf.split along the channel axis (DeepDenoiser.py line 711): the
channel dimension of the backbone output is modelled as a list, cut into
consecutive slices of the given sizes. -/
def tf_split {α : Type} (sizes : List ℕ) (xs : List α) : List (List α) :=
  match sizes with
  | [] => []
  | n :: ns => xs.take n :: tf_split ns (xs.drop n)

/- ===================== Combined training feature construction ===================== -/

/-- The mean / variation / ms_ssim loss weight triple read from the
configuration for a combined feature and for the combined image
(DeepDenoiser.py lines 1273, 1300). -/
structure CombinedLossWeights where
  mean : ℝ
  variation : ℝ
  ms_ssim : ℝ

/-- One entry of the combined_features configuration map
(DeepDenoiser.py lines 1269-1273). -/
structure CombinedFeatureConfig where
  name : String
  loss_weights : CombinedLossWeights

/-- The construction loop for combined training features in main
(DeepDenoiser.py lines 1270-1293): a CombinedTrainingFeature is
constructed for a configured combined feature exactly when its mean
weight or its variation weight is strictly positive; the result lists the
configurations for which one is constructed, in order. -/
noncomputable def build_combined_training_features
    (cfgs : List CombinedFeatureConfig) : List CombinedFeatureConfig :=
  cfgs.filter
    (fun c => 0 < c.loss_weights.mean ∨ 0 < c.loss_weights.variation)

/-- The combined image training feature construction in main
(DeepDenoiser.py lines 1298-1315): true exactly when a
CombinedImageTrainingFeature is constructed, i.e. when the configured
mean weight or variation weight is strictly positive (otherwise the
variable keeps its initial None). -/
noncomputable def build_combined_image_training_feature
    (w : CombinedLossWeights) : Bool :=
  decide (0 < w.mean ∨ 0 < w.variation)

/- ===================== RGB permutation guard ===================== -/

/-- The guard in input_fn_tfrecords.data_augmentation
(DeepDenoiser.py line 1029) deciding whether the drawn RGB permutation is
applied to the epoch's features: rgb_permutation[0] != 0 and
rgb_permutation[1] != 1 and rgb_permutation[2] != 2.  The permutation is
a reordering of [0, 1, 2], carried as a triple. -/
def rgb_permutation_applied (p : ℕ × ℕ × ℕ) : Bool :=
  decide (p.1 ≠ 0) && decide (p.2.1 ≠ 1) && decide (p.2.2 ≠ 2)

/-- The identity RGB permutation [0, 1, 2]
(DeepDenoiser.py lines 1121-1124). -/
def rgb_identity_permutation : ℕ × ℕ × ℕ := (0, 1, 2)

/- ===================== source_index_tuples ===================== -/

/-- The rejection-sampling loop of source_index_tuples
(DeepDenoiser.py lines 1105-1109): while the tuple is shorter than d,
draw an index uniformly in [0, N) and append it when it is not already in
the tuple.  random.randint(0, N - 1) is modelled by reading the random
stream g at the current position and reducing mod N; fuel bounds the
number of loop iterations (the Python loop has no such bound; running out
of fuel yields none, which only ever weakens a success result, never an
exception). -/
def sampleDistinct (N d : ℕ) (g : ℕ → ℕ) :
    ℕ → ℕ → List ℕ → Option (List ℕ × ℕ)
  | 0, pos, t => if d ≤ t.length then some (t, pos) else none
  | fuel + 1, pos, t =>
    if d ≤ t.length then some (t, pos)
    else
      let index := g pos % N
      if index ∈ t then sampleDistinct N d g fuel (pos + 1) t
      else sampleDistinct N d g fuel (pos + 1) (t ++ [index])

/-- The outer loop of the arity-greater-than-one branch of
source_index_tuples (DeepDenoiser.py line 1104): M tuples are sampled in
sequence, threading the random stream position. -/
def buildTuples (N d : ℕ) (g : ℕ → ℕ) (fuel : ℕ) :
    ℕ → ℕ → Option (List (List ℕ) × ℕ)
  | 0, pos => some ([], pos)
  | m + 1, pos =>
    match sampleDistinct N d g fuel pos [] with
    | none => none
    | some (t, pos1) =>
      match buildTuples N d g fuel m pos1 with
      | none => none
      | some (ts, pos2) => some (t :: ts, pos2)

/-- One step of the duplicate-free collection loop of source_index_tuples
(DeepDenoiser.py lines 1113-1116): an index is appended only when not
already collected. -/
def dedupAppend (acc : List ℕ) (i : ℕ) : List ℕ :=
  if i ∈ acc then acc else acc ++ [i]

/-- required_indices as computed by source_index_tuples
(DeepDenoiser.py lines 1112-1117): every index of every tuple is
collected once, in first-appearance order, and the result is sorted. -/
def required_indices (index_tuples : List (List ℕ)) : List ℕ :=
  List.insertionSort (fun a b => a ≤ b)
    (index_tuples.foldl (fun acc t => t.foldl dedupAppend acc) [])

/-- Observes whether a computation raised (the Except is the error
case). -/
def isRaise {ε α : Type} : Except ε α → Bool
  | Except.error _ => true
  | Except.ok _ => false

/-- source_index_tuples (DeepDenoiser.py lines 1089-1119).  N is
number_of_sources_per_example, M is number_of_source_index_tuples, d is
number_of_sources_per_target.  The exception at the top is the error
case; the random stream is modelled by g (randint(0, N-1) is g at the
next position, mod N); the arity-one branch fills complete round-robin
cycles and then M mod N uniformly drawn singleton slots; the other branch
rejection-samples each tuple (an exhausted fuel budget is returned as
ok none, distinct from the raise). -/
def source_index_tuples (N M d : ℕ) (g : ℕ → ℕ) (fuel : ℕ) :
    Except String (Option (List (List ℕ) × List ℕ)) :=
  if N < d then
    Except.error "The source index tuples contain unique indices. That is not possible if there are fewer source examples than indices per tuple."
  else if d = 1 then
    let number_of_complete_tuple_sets := M / N
    let number_of_remaining_tuples := M % N
    let index_tuples :=
      ((List.range number_of_complete_tuple_sets).flatMap fun _ =>
        (List.range N).map fun index => [index])
      ++ ((List.range number_of_remaining_tuples).map fun j => [g j % N])
    Except.ok (some (index_tuples, required_indices index_tuples))
  else
    match buildTuples N d g fuel M 0 with
    | none => Except.ok none
    | some (index_tuples, _) =>
      Except.ok (some (index_tuples, required_indices index_tuples))

theorem signed_expm1_signed_log1p (x : ℝ) : signed_expm1 (signed_log1p x) = x := by
  unfold signed_log1p signed_expm1
  by_cases hx : x < 0
  · have h1 : (0:ℝ) < 1 - x := by linarith
    have hlogpos : 0 < Real.log (1 - x) := Real.log_pos (by linarith)
    rw [if_pos hx, if_pos (by linarith : -Real.log (1 - x) < 0), neg_neg,
      Real.exp_log h1]
    ring
  · have h1 : (0:ℝ) < 1 + x := by linarith [not_lt.mp hx]
    have hlognn : 0 ≤ Real.log (1 + x) := Real.log_nonneg (by linarith [not_lt.mp hx])
    rw [if_neg hx, if_neg (not_lt.mpr hlognn), Real.exp_log h1]
    ring

/-- C1 (amended): for every FeatureStandardization configuration whose
variance parameter is strictly positive (any combination of use_log1p
on/off, mean zero/nonzero, variance one/non-one) and every input x,
invert_standardize (standardize x) = x: the three inverse steps undo the
three forward steps in reverse order.  The positivity restriction on the
variance is forced: see the counterexample with variance 0. -/
theorem standardize_invert_standardize (s : FeatureStandardization)
    (hv : 0 < s.variance) (x : ℝ) :
    s.invert_standardize (s.standardize x) = x := by
  unfold FeatureStandardization.standardize FeatureStandardization.invert_standardize
  have hsqrt : Real.sqrt s.variance ≠ 0 := ne_of_gt (Real.sqrt_pos.mpr hv)
  by_cases h1 : s.variance = 1 <;> by_cases h2 : s.mean = 0 <;>
    by_cases h3 : s.use_log1p <;>
    simp [h1, h2, h3, div_mul_cancel₀, hsqrt, signed_expm1_signed_log1p,
      sub_add_cancel_right]

/-- Witness for C1: a concrete configuration with log1p on, mean 5 and
variance 4 round-trips the input 3 exactly. -/
theorem standardize_invert_standardize_witness :
    FeatureStandardization.invert_standardize ⟨true, 5, 4⟩
      (FeatureStandardization.standardize ⟨true, 5, 4⟩ 3) = 3 :=
  standardize_invert_standardize ⟨true, 5, 4⟩ (by norm_num) 3

/-- Counterexample for C1 as frozen: with variance 0 (a legal "non-one"
value under the claim's quantification) the round trip fails at the finite
input 1: standardize divides by sqrt 0 and the result cannot be inverted
(in IEEE floats the value is NaN; in the real-valued model it is 0). -/
theorem standardize_not_inverted_at_variance_zero :
    FeatureStandardization.invert_standardize ⟨false, 0, 0⟩
      (FeatureStandardization.standardize ⟨false, 0, 0⟩ 1) ≠ 1 := by
  unfold FeatureStandardization.standardize FeatureStandardization.invert_standardize
  norm_num

theorem lossStep_eq (r w : ℝ) (t : Except String ℝ) (v : ℝ)
    (h : 0 < w → t = Except.ok v) :
    lossStep r w t = Except.ok (r + if 0 < w then w * v else 0) := by
  unfold lossStep
  by_cases hw : 0 < w
  · rw [h hw, if_pos hw, if_pos hw]
    rfl
  · rw [if_neg hw, if_neg hw, add_zero]

/-- C3: BaseTrainingFeature.loss is the weighted sum of the six loss terms
in which a term contributes exactly when its configured weight is strictly
positive.  The term computations are arbitrary Except values and only the
strictly-positively-weighted ones are required to succeed, so a
zero-weighted term is never evaluated; with all six weights 0 the result
is ok 0 whatever the six computations would do. -/
theorem loss_weighted_sum (w : LossWeights) (t : LossTerms)
    (m v s mm mv ms : ℝ)
    (hm : 0 < w.mean_weight → t.mean = Except.ok m)
    (hv : 0 < w.variation_weight → t.variation = Except.ok v)
    (hs : 0 < w.ms_ssim_weight → t.ms_ssim = Except.ok s)
    (hmm : 0 < w.masked_mean_weight → t.masked_mean = Except.ok mm)
    (hmv : 0 < w.masked_variation_weight → t.masked_variation = Except.ok mv)
    (hms : 0 < w.masked_ms_ssim_weight → t.masked_ms_ssim = Except.ok ms) :
    BaseTrainingFeature.loss w t = Except.ok
      ((if 0 < w.mean_weight then w.mean_weight * m else 0)
        + (if 0 < w.variation_weight then w.variation_weight * v else 0)
        + (if 0 < w.ms_ssim_weight then w.ms_ssim_weight * s else 0)
        + (if 0 < w.masked_mean_weight then w.masked_mean_weight * mm else 0)
        + (if 0 < w.masked_variation_weight then w.masked_variation_weight * mv else 0)
        + (if 0 < w.masked_ms_ssim_weight then w.masked_ms_ssim_weight * ms else 0)) := by
  unfold BaseTrainingFeature.loss
  rw [lossStep_eq _ _ _ _ hm]
  simp only [Except.bind]
  rw [lossStep_eq _ _ _ _ hv]
  simp only [Except.bind]
  rw [lossStep_eq _ _ _ _ hs]
  simp only [Except.bind]
  rw [lossStep_eq _ _ _ _ hmm]
  simp only [Except.bind]
  rw [lossStep_eq _ _ _ _ hmv]
  simp only [Except.bind]
  rw [lossStep_eq _ _ _ _ hms]
  simp only [Except.bind]
  norm_num

/-- Witness for C3: with all six weights 0 and all six term computations
raising, loss still returns exactly ok 0 — no term is evaluated. -/
theorem loss_weighted_sum_witness :
    BaseTrainingFeature.loss ⟨0, 0, 0, 0, 0, 0⟩
      ⟨Except.error "boom", Except.error "boom", Except.error "boom",
        Except.error "boom", Except.error "boom", Except.error "boom"⟩
      = Except.ok 0 := by
  have h := loss_weighted_sum ⟨0, 0, 0, 0, 0, 0⟩
    ⟨Except.error "boom", Except.error "boom", Except.error "boom",
      Except.error "boom", Except.error "boom", Except.error "boom"⟩
    0 0 0 0 0 0
    (by norm_num) (by norm_num) (by norm_num)
    (by norm_num) (by norm_num) (by norm_num)
  simpa using h

/-- C4: masked_mean returns exactly 0 when mask_sum is 0 (the tf.cond
guard takes the constant branch, no NaN or Inf); when mask_sum is strictly
positive it returns the sum of difference times mask, divided by
mask_sum. -/
theorem masked_mean_guard (difference mask : List ℝ) (mask_sum : ℝ) :
    (mask_sum = 0 → BaseTrainingFeature.masked_mean difference mask mask_sum = 0)
    ∧ (0 < mask_sum → BaseTrainingFeature.masked_mean difference mask mask_sum
        = (List.zipWith (fun d m => d * m) difference mask).sum / mask_sum) := by
  constructor
  · intro h
    unfold BaseTrainingFeature.masked_mean
    rw [h]
    norm_num
  · intro h
    unfold BaseTrainingFeature.masked_mean
    rw [if_pos h]
    simp only [div_eq_mul_inv]
    rw [List.sum_map_mul_right]
    simp

/-- Witness for C4: an all-zero mask on a concrete difference tensor
yields exactly 0, and a mask summing to 2 yields the masked sum halved. -/
theorem masked_mean_guard_witness :
    BaseTrainingFeature.masked_mean [1, 2] [0, 0] 0 = 0
    ∧ BaseTrainingFeature.masked_mean [1, 3] [1, 1] 2
        = (List.zipWith (fun d m => d * m) [(1:ℝ), 3] [1, 1]).sum / 2 :=
  ⟨(masked_mean_guard [1, 2] [0, 0] 0).1 rfl,
    (masked_mean_guard [1, 3] [1, 1] 2).2 (by norm_num)⟩

/-- C9: masked_ms_ssim always fails (the body is a bare raise); it never
returns ok with any value. -/
theorem masked_ms_ssim_raises (r : ℝ) :
    BaseTrainingFeature.masked_ms_ssim ≠ Except.ok r := by
  unfold BaseTrainingFeature.masked_ms_ssim
  intro h
  exact Except.noConfusion h

theorem combined_output_size_foldl (u : Bool) (k : ℕ) :
    ∀ (outs : List ModelPredictionFeature) (a : ℕ),
      outs.foldl
        (fun acc f =>
          if u then acc + k ^ 2 else acc + f.number_of_channels) a
      = a + (combined_size_splits u k outs).sum := by
  intro outs
  induction outs with
  | nil => intro a; simp [combined_size_splits]
  | cons f rest ih =>
    intro a
    rw [List.foldl_cons, ih]
    simp only [combined_size_splits, List.map_cons, List.sum_cons]
    cases u <;> simp <;> omega

theorem combined_output_size_eq_sum (u : Bool) (k : ℕ)
    (outs : List ModelPredictionFeature) :
    combined_output_size u k outs = (combined_size_splits u k outs).sum := by
  unfold combined_output_size
  rw [combined_output_size_foldl]
  omega

theorem tf_split_length {α : Type} :
    ∀ (sizes : List ℕ) (xs : List α), (tf_split sizes xs).length = sizes.length := by
  intro sizes
  induction sizes with
  | nil => intro xs; rfl
  | cons n ns ih => intro xs; simp [tf_split, ih]

theorem tf_split_map_length {α : Type} :
    ∀ (sizes : List ℕ) (xs : List α), sizes.sum ≤ xs.length →
      (tf_split sizes xs).map List.length = sizes := by
  intro sizes
  induction sizes with
  | nil => intro xs _; rfl
  | cons n ns ih =>
    intro xs h
    simp only [List.sum_cons] at h
    simp only [tf_split, List.map_cons, List.length_take]
    rw [min_eq_left (by omega : n ≤ xs.length)]
    rw [ih (xs.drop n) (by simp; omega)]

theorem tf_split_flatten {α : Type} :
    ∀ (sizes : List ℕ) (xs : List α),
      (tf_split sizes xs).flatten = xs.take sizes.sum := by
  intro sizes
  induction sizes with
  | nil => intro xs; simp [tf_split]
  | cons n ns ih =>
    intro xs
    simp only [tf_split, List.flatten_cons, List.sum_cons, ih]
    rw [List.take_add]

/-- C2: in the combined-features architecture, the backbone output channel
width equals the sum over all target features (in original declared order)
of kernel_size squared under kernel prediction, of the feature's channel
count otherwise; and splitting a backbone output of that width yields one
slice per target feature whose widths are exactly the per-feature sizes,
in order, reassembling to the whole output. -/
theorem combined_model_split_round_trip {α : Type} (u : Bool) (k : ℕ)
    (fs : List ModelPredictionFeature) (xs : List α)
    (hlen : xs.length
      = combined_output_size u k (output_prediction_features fs)) :
    combined_output_size u k (output_prediction_features fs)
      = (combined_size_splits u k (output_prediction_features fs)).sum
    ∧ (tf_split (combined_size_splits u k (output_prediction_features fs)) xs).length
      = (output_prediction_features fs).length
    ∧ (tf_split (combined_size_splits u k (output_prediction_features fs)) xs).map
        List.length
      = combined_size_splits u k (output_prediction_features fs)
    ∧ (tf_split (combined_size_splits u k (output_prediction_features fs)) xs).flatten
      = xs := by
  have hsum := combined_output_size_eq_sum u k (output_prediction_features fs)
  refine ⟨hsum, ?_, ?_, ?_⟩
  · rw [tf_split_length]
    simp [combined_size_splits]
  · exact tf_split_map_length _ xs (by omega)
  · rw [tf_split_flatten, ← hsum, ← hlen, List.take_length]

/-- Witness for C2: two target features of widths 3 and 1 among a
non-target feature, kernel prediction off; a synthetic backbone output of
width 4 splits into slices of widths 3 and 1 whose concatenation is the
output. -/
theorem combined_model_split_round_trip_witness :
    combined_output_size false 0
      (output_prediction_features [⟨true, 3⟩, ⟨false, 2⟩, ⟨true, 1⟩])
      = (combined_size_splits false 0
          (output_prediction_features [⟨true, 3⟩, ⟨false, 2⟩, ⟨true, 1⟩])).sum
    ∧ (tf_split (combined_size_splits false 0
          (output_prediction_features [⟨true, 3⟩, ⟨false, 2⟩, ⟨true, 1⟩]))
          [10, 11, 12, 13]).length
      = (output_prediction_features [⟨true, 3⟩, ⟨false, 2⟩, ⟨true, 1⟩]).length
    ∧ (tf_split (combined_size_splits false 0
          (output_prediction_features [⟨true, 3⟩, ⟨false, 2⟩, ⟨true, 1⟩]))
          [10, 11, 12, 13]).map List.length
      = combined_size_splits false 0
          (output_prediction_features [⟨true, 3⟩, ⟨false, 2⟩, ⟨true, 1⟩])
    ∧ (tf_split (combined_size_splits false 0
          (output_prediction_features [⟨true, 3⟩, ⟨false, 2⟩, ⟨true, 1⟩]))
          [10, 11, 12, 13]).flatten
      = [10, 11, 12, 13] :=
  combined_model_split_round_trip false 0 [⟨true, 3⟩, ⟨false, 2⟩, ⟨true, 1⟩]
    ([10, 11, 12, 13] : List ℕ) (by decide)

/-- C10: a combined feature whose configured mean and variation weights
are both non-positive gets no CombinedTrainingFeature at startup, and
likewise the combined image gets no CombinedImageTrainingFeature — even
when the ms_ssim weight is strictly positive (the construction guard never
looks at it), so such a feature never contributes any loss term. -/
theorem combined_zero_weights_not_constructed :
    (∀ (cfgs : List CombinedFeatureConfig) (c : CombinedFeatureConfig),
      c ∈ cfgs → c.loss_weights.mean ≤ 0 → c.loss_weights.variation ≤ 0 →
        c ∉ build_combined_training_features cfgs)
    ∧ ∀ w : CombinedLossWeights, w.mean ≤ 0 → w.variation ≤ 0 →
        build_combined_image_training_feature w = false := by
  constructor
  · intro cfgs c _ hm hv hmem
    have h := (List.mem_filter.mp hmem).2
    have h2 : 0 < c.loss_weights.mean ∨ 0 < c.loss_weights.variation :=
      of_decide_eq_true h
    rcases h2 with h2 | h2 <;> linarith
  · intro w hm hv
    unfold build_combined_image_training_feature
    simp only [decide_eq_false_iff_not]
    push_neg
    exact ⟨hm, hv⟩

/-- Witness for C10: a combined feature configured with mean 0,
variation 0 and ms_ssim 1 is not constructed, and the combined image with
the same weights is not constructed either. -/
theorem combined_zero_weights_not_constructed_witness :
    (⟨"Diffuse", ⟨0, 0, 1⟩⟩ : CombinedFeatureConfig) ∉
      build_combined_training_features [⟨"Diffuse", ⟨0, 0, 1⟩⟩]
    ∧ build_combined_image_training_feature ⟨0, 0, 1⟩ = false :=
  ⟨combined_zero_weights_not_constructed.1 [⟨"Diffuse", ⟨0, 0, 1⟩⟩] _
      (List.mem_singleton.mpr rfl) le_rfl le_rfl,
    combined_zero_weights_not_constructed.2 ⟨0, 0, 1⟩ le_rfl le_rfl⟩

theorem sampleDistinct_spec (N d : ℕ) (g : ℕ → ℕ) (hN : 0 < N) :
    ∀ (fuel pos : ℕ) (t : List ℕ) (res : List ℕ × ℕ),
      t.Nodup → (∀ i ∈ t, i < N) → t.length ≤ d →
      sampleDistinct N d g fuel pos t = some res →
      res.1.length = d ∧ res.1.Nodup ∧ ∀ i ∈ res.1, i < N := by
  intro fuel
  induction fuel with
  | zero =>
    intro pos t res hnd hb hl h
    unfold sampleDistinct at h
    by_cases hd : d ≤ t.length
    · rw [if_pos hd] at h
      obtain rfl : (t, pos) = res := Option.some.inj h
      exact ⟨le_antisymm hl hd, hnd, hb⟩
    · rw [if_neg hd] at h
      exact Option.noConfusion h
  | succ fuel ih =>
    intro pos t res hnd hb hl h
    unfold sampleDistinct at h
    by_cases hd : d ≤ t.length
    · rw [if_pos hd] at h
      obtain rfl : (t, pos) = res := Option.some.inj h
      exact ⟨le_antisymm hl hd, hnd, hb⟩
    · rw [if_neg hd] at h
      simp only [] at h
      by_cases hmem : g pos % N ∈ t
      · rw [if_pos hmem] at h
        exact ih (pos + 1) t res hnd hb hl h
      · rw [if_neg hmem] at h
        refine ih (pos + 1) (t ++ [g pos % N]) res ?_ ?_ ?_ h
        · simp [List.nodup_append, hnd, hmem]
        · intro i hi
          rcases List.mem_append.mp hi with hi | hi
          · exact hb i hi
          · rcases List.mem_singleton.mp hi with rfl
            exact Nat.mod_lt _ hN
        · simp only [List.length_append, List.length_singleton]
          omega

theorem buildTuples_spec (N d : ℕ) (g : ℕ → ℕ) (fuel : ℕ) (hN : 0 < N) :
    ∀ (m pos : ℕ) (res : List (List ℕ) × ℕ),
      buildTuples N d g fuel m pos = some res →
      res.1.length = m
      ∧ ∀ t ∈ res.1, t.length = d ∧ t.Nodup ∧ ∀ i ∈ t, i < N := by
  intro m
  induction m with
  | zero =>
    intro pos res h
    obtain rfl : (([] : List (List ℕ)), pos) = res := Option.some.inj h
    simp
  | succ m ih =>
    intro pos res h
    unfold buildTuples at h
    split at h
    · exact Option.noConfusion h
    · rename_i t pos1 hs
      split at h
      · exact Option.noConfusion h
      · rename_i ts pos2 hb
        obtain rfl : (t :: ts, pos2) = res := Option.some.inj h
        have ht := sampleDistinct_spec N d g hN fuel pos [] (t, pos1)
          List.nodup_nil (by simp) (by simp) hs
        have hts := ih pos1 (ts, pos2) hb
        refine ⟨by simpa using congrArg Nat.succ hts.1, ?_⟩
        intro u hu
        rcases List.mem_cons.mp hu with rfl | hu
        · exact ht
        · exact hts.2 u hu

/-- C5: for arity d greater than one, source_index_tuples raises its
exception exactly when N is less than d, and whenever it returns a list
of tuples, there are M of them and each consists of exactly d
pairwise-distinct indices in [0, N). -/
theorem source_index_tuples_distinct (N M d fuel : ℕ) (g : ℕ → ℕ)
    (hd : 1 < d) :
    (isRaise (source_index_tuples N M d g fuel) = true ↔ N < d)
    ∧ ∀ tuples required,
        source_index_tuples N M d g fuel
          = Except.ok (some (tuples, required)) →
        tuples.length = M
        ∧ ∀ t ∈ tuples, t.length = d ∧ t.Nodup ∧ ∀ i ∈ t, i < N := by
  unfold source_index_tuples
  by_cases hlt : N < d
  · rw [if_pos hlt]
    exact ⟨by simp [isRaise, hlt], fun tuples required h =>
      Except.noConfusion h⟩
  · rw [if_neg hlt, if_neg (by omega : ¬ d = 1)]
    have hN : 0 < N := by omega
    split
    · refine ⟨by simp [isRaise, hlt], ?_⟩
      intro tuples required h
      exact Option.noConfusion (Except.ok.inj h)
    · rename_i tuples0 pos hb
      refine ⟨by simp [isRaise, hlt], ?_⟩
      intro tuples required h
      have heq : (some (tuples0, required_indices tuples0)
          : Option (List (List ℕ) × List ℕ)) = some (tuples, required) :=
        Except.ok.inj h
      have htup : tuples0 = tuples := congrArg Prod.fst (Option.some.inj heq)
      subst htup
      exact buildTuples_spec N d g fuel hN M 0 (tuples0, pos) hb

/-- Witness for C5: with three sources per example, two tuples of arity
two and the stream 0, 1, 2, ... no exception is raised and every sampled
tuple has two distinct indices below three. -/
theorem source_index_tuples_distinct_witness :
    (isRaise (source_index_tuples 3 2 2 (fun n => n) 10) = true ↔ 3 < 2)
    ∧ ∀ tuples required,
        source_index_tuples 3 2 2 (fun n => n) 10
          = Except.ok (some (tuples, required)) →
        tuples.length = 2
        ∧ ∀ t ∈ tuples, t.length = 2 ∧ t.Nodup ∧ ∀ i ∈ t, i < 3 :=
  source_index_tuples_distinct 3 2 2 10 (fun n => n) (by norm_num)

theorem mem_dedupAppend (acc : List ℕ) (x i : ℕ) :
    i ∈ dedupAppend acc x ↔ i ∈ acc ∨ i = x := by
  unfold dedupAppend
  split
  · rename_i hx
    constructor
    · exact Or.inl
    · rintro (h | rfl)
      · exact h
      · exact hx
  · simp [List.mem_append]

theorem nodup_dedupAppend (acc : List ℕ) (x : ℕ) (h : acc.Nodup) :
    (dedupAppend acc x).Nodup := by
  unfold dedupAppend
  split
  · exact h
  · rename_i hx
    simp [List.nodup_append, h, hx]

theorem mem_foldl_dedupAppend :
    ∀ (l acc : List ℕ) (i : ℕ),
      i ∈ l.foldl dedupAppend acc ↔ i ∈ acc ∨ i ∈ l := by
  intro l
  induction l with
  | nil => intro acc i; simp
  | cons x xs ih =>
    intro acc i
    rw [List.foldl_cons, ih, mem_dedupAppend]
    simp only [List.mem_cons]
    tauto

theorem nodup_foldl_dedupAppend :
    ∀ (l acc : List ℕ), acc.Nodup → (l.foldl dedupAppend acc).Nodup := by
  intro l
  induction l with
  | nil => intro acc h; exact h
  | cons x xs ih =>
    intro acc h
    rw [List.foldl_cons]
    exact ih _ (nodup_dedupAppend acc x h)

theorem mem_collected_indices :
    ∀ (tuples : List (List ℕ)) (acc : List ℕ) (i : ℕ),
      i ∈ tuples.foldl (fun acc t => t.foldl dedupAppend acc) acc
        ↔ i ∈ acc ∨ ∃ t ∈ tuples, i ∈ t := by
  intro tuples
  induction tuples with
  | nil => intro acc i; simp
  | cons t ts ih =>
    intro acc i
    rw [List.foldl_cons, ih, mem_foldl_dedupAppend]
    simp only [List.mem_cons]
    constructor
    · rintro ((h | h) | ⟨u, hu, hiu⟩)
      · exact Or.inl h
      · exact Or.inr ⟨t, Or.inl rfl, h⟩
      · exact Or.inr ⟨u, Or.inr hu, hiu⟩
    · rintro (h | ⟨u, (rfl | hu), hiu⟩)
      · exact Or.inl (Or.inl h)
      · exact Or.inl (Or.inr hiu)
      · exact Or.inr ⟨u, hu, hiu⟩

theorem nodup_collected_indices :
    ∀ (tuples : List (List ℕ)) (acc : List ℕ), acc.Nodup →
      (tuples.foldl (fun acc t => t.foldl dedupAppend acc) acc).Nodup := by
  intro tuples
  induction tuples with
  | nil => intro acc h; exact h
  | cons t ts ih =>
    intro acc h
    rw [List.foldl_cons]
    exact ih _ (nodup_foldl_dedupAppend t acc h)

theorem count_flatMap_const {α β : Type} [BEq α] :
    ∀ (xs : List β) (c : List α) (a : α),
      (xs.flatMap fun _ => c).count a = xs.length * c.count a := by
  intro xs
  induction xs with
  | nil => intro c a; simp
  | cons x xs ih =>
    intro c a
    rw [List.flatMap_cons, List.count_append, ih, List.length_cons]
    ring

theorem count_singleton_map :
    ∀ N i : ℕ, ((List.range N).map fun j => [j]).count [i]
      = if i < N then 1 else 0 := by
  intro N
  induction N with
  | zero => intro i; simp
  | succ N ih =>
    intro i
    rw [List.range_succ, List.map_append, List.count_append, ih]
    simp only [List.map_cons, List.map_nil, List.count_cons, List.count_nil]
    by_cases hiN : i = N
    · subst hiN
      simp
    · have hne : ¬ ([i] = [N]) := by simp [hiN]
      have hne2 : ¬ (N = i) := fun h => hiN h.symm
      by_cases hlt : i < N
      · have : i < N + 1 := by omega
        simp [hlt, this, hne, hne2]
      · have : ¬ i < N + 1 := by omega
        simp [hlt, this, hne, hne2]

/-- C6: with arity one and a tuple budget that is an exact multiple k of
the number N of sources per example, source_index_tuples produces only
singleton tuples, each index below N appearing exactly k times (the
deterministic round-robin cycles; no remainder slot exists), and
required_indices is sorted, duplicate-free, bounded by N, and contains
exactly the indices appearing in some tuple. -/
theorem source_index_tuples_round_robin (N k fuel : ℕ) (g : ℕ → ℕ)
    (hN : 0 < N) :
    ∃ tuples required,
      source_index_tuples N (k * N) 1 g fuel
        = Except.ok (some (tuples, required))
      ∧ (∀ i, i < N → tuples.count [i] = k)
      ∧ (∀ t ∈ tuples, ∃ i, i < N ∧ t = [i])
      ∧ List.Sorted (fun a b => a ≤ b) required
      ∧ required.Nodup
      ∧ (∀ i, i ∈ required ↔ ∃ t ∈ tuples, i ∈ t)
      ∧ (∀ i ∈ required, i < N) := by
  have hdiv : k * N / N = k := Nat.mul_div_cancel k hN
  have hmod : k * N % N = 0 := Nat.mul_mod_left k N
  refine ⟨(List.range k).flatMap (fun _ => (List.range N).map fun index => [index]),
    required_indices ((List.range k).flatMap
      (fun _ => (List.range N).map fun index => [index])),
    ?_, ?_, ?_, ?_, ?_, ?_, ?_⟩
  · unfold source_index_tuples
    rw [if_neg (by omega), if_pos rfl]
    simp only [hdiv, hmod, List.range_zero, List.map_nil, List.append_nil]
  · intro i hi
    rw [count_flatMap_const (List.range k)
        (List.map (fun index => [index]) (List.range N)) [i],
      count_singleton_map N i, if_pos hi, List.length_range, Nat.mul_one]
  · intro t ht
    rcases List.mem_flatMap.mp ht with ⟨_, _, hmem⟩
    rcases List.mem_map.mp hmem with ⟨index, hindex, rfl⟩
    exact ⟨index, List.mem_range.mp hindex, rfl⟩
  · exact List.sorted_insertionSort _ _
  · unfold required_indices
    exact ((List.perm_insertionSort _ _).nodup_iff).mpr
      (nodup_collected_indices _ [] List.nodup_nil)
  · intro i
    unfold required_indices
    rw [(List.perm_insertionSort _ _).mem_iff, mem_collected_indices]
    simp
  · intro i hi
    unfold required_indices at hi
    rw [(List.perm_insertionSort _ _).mem_iff, mem_collected_indices] at hi
    rcases hi with hi | ⟨t, ht, hit⟩
    · simp at hi
    · rcases List.mem_flatMap.mp ht with ⟨_, _, hmem⟩
      rcases List.mem_map.mp hmem with ⟨index, hindex, rfl⟩
      rcases List.mem_singleton.mp hit with rfl
      exact List.mem_range.mp hindex

/-- Witness for C6: two sources per example and four tuples (k = 2): the
round-robin list contains each of the indices 0 and 1 twice. -/
theorem source_index_tuples_round_robin_witness :
    ∃ tuples required,
      source_index_tuples 2 (2 * 2) 1 (fun n => n) 0
        = Except.ok (some (tuples, required))
      ∧ (∀ i, i < 2 → tuples.count [i] = 2)
      ∧ (∀ t ∈ tuples, ∃ i, i < 2 ∧ t = [i])
      ∧ List.Sorted (fun a b => a ≤ b) required
      ∧ required.Nodup
      ∧ (∀ i, i ∈ required ↔ ∃ t ∈ tuples, i ∈ t)
      ∧ (∀ i ∈ required, i < 2) :=
  source_index_tuples_round_robin 2 2 0 (fun n => n) (by norm_num)
theorem except_bind_ok {ε β γ : Type} (x : β) (g : β → Except ε γ) :
    (Except.ok x : Except ε β).bind g = g x := rfl

theorem except_bind_error {ε β γ : Type} (e : ε) (g : β → Except ε γ) :
    (Except.error e : Except ε β).bind g = Except.error e := rfl

theorem except_ok_seq_bind {ε β γ : Type} (x : β) (g : β → Except ε γ) :
    ((Except.ok x : Except ε β) >>= g) = g x := rfl

theorem vpStep_ok {α : Type} (fv : FeatureVarianceM α)
    (hv : fv.use_variance = true) (src : List α) {a : ℕ} {var : List α}
    (ha : a < src.length) (hlen : var.length = a) :
    vpStep fv src var a = Except.ok (var ++ [fv.varFn (src.get ⟨a, ha⟩)]) := by
  unfold vpStep
  rw [if_pos hlen, List.getElem?_eq_getElem ha]
  show (fv.variance src[a]).map (fun v => var ++ [v]) = _
  unfold FeatureVarianceM.variance
  rw [if_pos hv]
  rfl

theorem vpStep_assert {α : Type} (fv : FeatureVarianceM α) (src : List α)
    {index : ℕ} {var : List α} (h : ¬ var.length = index) :
    vpStep fv src var index
      = Except.error "AssertionError: len(variance) == index" := by
  unfold vpStep
  rw [if_neg h]

theorem variancePass_go {α : Type} (fv : FeatureVarianceM α)
    (hv : fv.use_variance = true) (src : List α) :
    ∀ (n a : ℕ) (var0 : List α), var0.length = a → a + n ≤ src.length →
      (List.range' a n).foldlM (vpStep fv src) var0
        = Except.ok (var0 ++ ((src.drop a).take n).map fv.varFn) := by
  intro n
  induction n with
  | zero =>
    intro a var0 _ _
    simp only [List.range'_zero, List.foldlM_nil, List.take_zero,
      List.map_nil, List.append_nil]
    rfl
  | succ n ih =>
    intro a var0 hlen hle
    have ha : a < src.length := by omega
    rw [List.range'_succ, List.foldlM_cons, vpStep_ok fv hv src ha hlen,
      except_ok_seq_bind,
      ih (a + 1) (var0 ++ [fv.varFn (src.get ⟨a, ha⟩)]) (by simp [hlen]) (by omega),
      List.drop_eq_getElem_cons ha, List.take_succ_cons, List.map_cons]
    simp

theorem variancePass_ok {α : Type} (fv : FeatureVarianceM α)
    (hv : fv.use_variance = true) (src : List α) (K : ℕ)
    (hK : src.length = K) :
    variancePass fv src K [] = Except.ok (src.map fv.varFn) := by
  unfold variancePass
  rw [List.range_eq_range',
    variancePass_go fv hv src K 0 [] rfl (by omega)]
  simp [← hK, List.take_length]

theorem variancePass_assert_fail {α : Type} (fv : FeatureVarianceM α)
    (src : List α) (K : ℕ) (var0 : List α) (h0 : var0 ≠ []) (hK : 0 < K) :
    variancePass fv src K var0
      = Except.error "AssertionError: len(variance) == index" := by
  unfold variancePass
  obtain ⟨K1, rfl⟩ : ∃ K1, K = K1 + 1 := ⟨K - 1, by omega⟩
  rw [List.range_succ_eq_map, List.foldlM_cons]
  have hlen : ¬ var0.length = 0 := by
    cases var0 with
    | nil => exact absurd rfl h0
    | cons a l => simp
  rw [vpStep_assert fv src hlen]
  rfl

theorem standardizeLoop_ok {α : Type} (f : α → α) :
    ∀ src : List α, standardizeLoop f src.length src = Except.ok (src.map f) := by
  intro src
  induction src with
  | nil => rfl
  | cons x xs ih =>
    show (standardizeLoop f xs.length xs).map (fun rest => f x :: rest)
      = Except.ok (f x :: xs.map f)
    rw [ih]
    rfl

/-- C8 (amended): for every PredictionFeature with variance enabled and
at least one source, a single standardize call from the sources-loaded
state (variance list empty, one source tensor per source index) succeeds
and leaves exactly number_of_sources variance entries; exactly one of the
two variance passes executes, selected by compute_before_standardization
(the entries are the variances of the raw sources when it is true, of the
standardized sources when it is false); and a second standardize call on
the resulting state fails the len(variance) == index assertion instead of
silently overwriting.  The at-least-one-source restriction is forced: see
the counterexample with number_of_sources = 0. -/
theorem prediction_feature_standardize_once {α : Type}
    (pf : PredictionFeatureM α) (s : PredictionFeatureState α)
    (hv : pf.feature_variance.use_variance = true)
    (h0 : s.variance = [])
    (hlen : s.source.length = pf.number_of_sources)
    (hK : 0 < pf.number_of_sources) :
    ∃ s1 : PredictionFeatureState α,
      pf.standardize s = Except.ok s1
      ∧ s1.variance.length = pf.number_of_sources
      ∧ (pf.feature_variance.compute_before_standardization = true →
          s1.variance = s.source.map pf.feature_variance.varFn)
      ∧ (pf.feature_variance.compute_before_standardization = false →
          s1.variance = s1.source.map pf.feature_variance.varFn)
      ∧ pf.standardize s1
          = Except.error "AssertionError: len(variance) == index" := by
  have hsrc0 : s.source ≠ [] := by
    intro h
    rw [h] at hlen
    simp at hlen
    omega
  obtain ⟨x0, hx0⟩ : ∃ x0, s.source[0]? = some x0 :=
    ⟨s.source.get ⟨0, by omega⟩, List.getElem?_eq_getElem (by omega)⟩
  obtain ⟨p, hp⟩ : ∃ p, (if pf.preserve_source then
      match s.source[0]? with
      | some x => Except.ok (some x)
      | none => Except.error "IndexError: list index out of range"
    else Except.ok s.preserved_source) = Except.ok p := by
    cases hpp : pf.preserve_source
    · exact ⟨s.preserved_source, rfl⟩
    · rw [if_pos rfl, hx0]
      exact ⟨some x0, rfl⟩
  obtain ⟨src1, hsrc1, hsrc1len⟩ : ∃ src1 : List α,
      (match pf.feature_standardization with
        | some f => standardizeLoop f pf.number_of_sources s.source
        | none => Except.ok s.source) = Except.ok src1
      ∧ src1.length = pf.number_of_sources := by
    cases hf : pf.feature_standardization with
    | none => exact ⟨s.source, rfl, hlen⟩
    | some f =>
      refine ⟨s.source.map f, ?_, by simpa using hlen⟩
      rw [← hlen]
      exact standardizeLoop_ok f s.source
  have hsrc1ne : src1 ≠ [] := by
    intro h
    rw [h] at hsrc1len
    simp at hsrc1len
    omega
  obtain ⟨q, hq⟩ : ∃ q, (if pf.preserve_source then
      match src1[0]? with
      | some x => Except.ok (some x)
      | none => Except.error "IndexError: list index out of range"
    else Except.ok p) = Except.ok q := by
    cases hpp : pf.preserve_source
    · exact ⟨p, rfl⟩
    · rw [if_pos rfl, List.getElem?_eq_getElem (by omega : 0 < src1.length)]
      exact ⟨some (src1.get ⟨0, by omega⟩), rfl⟩
  obtain ⟨src2, hsrc2⟩ : ∃ src2 : List α,
      (match pf.feature_standardization with
        | some f => standardizeLoop f pf.number_of_sources src1
        | none => Except.ok src1) = Except.ok src2 := by
    cases hf : pf.feature_standardization with
    | none => exact ⟨src1, rfl⟩
    | some f =>
      refine ⟨src1.map f, ?_⟩
      rw [← hsrc1len]
      exact standardizeLoop_ok f src1
  cases hb : pf.feature_variance.compute_before_standardization
  · -- compute_before_standardization = false: the pass runs after
    -- standardization, over src1
    have hvp1 : variancePass pf.feature_variance src1 pf.number_of_sources []
        = Except.ok (src1.map pf.feature_variance.varFn) :=
      variancePass_ok pf.feature_variance hv src1 pf.number_of_sources hsrc1len
    have hvp3 : variancePass pf.feature_variance src2 pf.number_of_sources
          (src1.map pf.feature_variance.varFn)
        = Except.error "AssertionError: len(variance) == index" :=
      variancePass_assert_fail pf.feature_variance src2 pf.number_of_sources _
        (by simpa [List.map_eq_nil_iff] using hsrc1ne) hK
    refine ⟨⟨src1, src1.map pf.feature_variance.varFn, p⟩, ?_, ?_, ?_, ?_, ?_⟩
    · unfold PredictionFeatureM.standardize
      simp [hv, hb, h0, hp, hsrc1, hvp1, except_bind_ok]
    · simpa using hsrc1len
    · intro h
      exact absurd h (by simp)
    · intro _
      rfl
    · unfold PredictionFeatureM.standardize
      simp [hv, hb, hq, hsrc2, hvp3, except_bind_ok, except_bind_error]
  · -- compute_before_standardization = true: the pass runs before
    -- standardization, over the raw sources
    have hvp1 : variancePass pf.feature_variance s.source pf.number_of_sources []
        = Except.ok (s.source.map pf.feature_variance.varFn) :=
      variancePass_ok pf.feature_variance hv s.source pf.number_of_sources hlen
    have hvp2 : variancePass pf.feature_variance src1 pf.number_of_sources
          (s.source.map pf.feature_variance.varFn)
        = Except.error "AssertionError: len(variance) == index" :=
      variancePass_assert_fail pf.feature_variance src1 pf.number_of_sources _
        (by simpa [List.map_eq_nil_iff] using hsrc0) hK
    refine ⟨⟨src1, s.source.map pf.feature_variance.varFn, p⟩, ?_, ?_, ?_, ?_, ?_⟩
    · unfold PredictionFeatureM.standardize
      simp [hv, hb, h0, hp, hsrc1, hvp1, except_bind_ok]
    · simpa using hlen
    · intro _
      rfl
    · intro h
      exact absurd h (by simp)
    · unfold PredictionFeatureM.standardize
      simp [hv, hb, hvp2, except_bind_ok, except_bind_error]
/-- Witness for C8: a one-source feature with variance enabled and
computed after standardization: the first standardize succeeds with one
variance entry and the second fails the assertion. -/
theorem prediction_feature_standardize_once_witness :
    ∃ s1 : PredictionFeatureState ℕ,
      PredictionFeatureM.standardize
          ⟨1, false, true, none, ⟨true, false, false, false, fun x => x * x⟩, 3, "Color"⟩
          ⟨[7], [], none⟩
        = Except.ok s1
      ∧ s1.variance.length = 1
      ∧ ((false : Bool) = true → s1.variance = [7].map (fun x => x * x))
      ∧ ((false : Bool) = false → s1.variance = s1.source.map (fun x => x * x))
      ∧ PredictionFeatureM.standardize
          ⟨1, false, true, none, ⟨true, false, false, false, fun x => x * x⟩, 3, "Color"⟩
          s1
        = Except.error "AssertionError: len(variance) == index" :=
  prediction_feature_standardize_once
    ⟨1, false, true, none, ⟨true, false, false, false, fun x => x * x⟩, 3, "Color"⟩
    ⟨[7], [], none⟩ rfl rfl rfl (by norm_num)

/-- Counterexample for C8 as frozen: a variance-enabled PredictionFeature
with zero sources (number_of_sources = 0) standardizes to an unchanged
state, and a second standardize call on that same state succeeds as well —
no assertion fires, because both variance loops iterate zero times. -/
theorem standardize_twice_no_assert_at_zero_sources :
    PredictionFeatureM.standardize
        (⟨0, false, true, none, ⟨true, false, true, false, fun x => x⟩, 3, "Color"⟩ :
          PredictionFeatureM ℕ)
        ⟨[], [], none⟩
      = Except.ok ⟨[], [], none⟩
    ∧ isRaise (PredictionFeatureM.standardize
        (⟨0, false, true, none, ⟨true, false, true, false, fun x => x⟩, 3, "Color"⟩ :
          PredictionFeatureM ℕ)
        ⟨[], [], none⟩) = false := by
  constructor <;> rfl

/-- C7 (code bug): the permutation (0, 2, 1) — which swaps the green and
blue channels and is not the identity — is nevertheless not applied by
data_augmentation, because the code's guard conjoins the three
displacement tests (rgb_permutation[0] != 0 and rgb_permutation[1] != 1
and rgb_permutation[2] != 2) instead of testing inequality with the
identity, so any permutation fixing at least one channel is skipped. -/
theorem rgb_permutation_guard_skips_non_identity :
    rgb_permutation_applied (0, 2, 1) = false
    ∧ (0, 2, 1) ≠ rgb_identity_permutation
    ∧ rgb_permutation_applied rgb_identity_permutation = false
    ∧ rgb_permutation_applied (1, 2, 0) = true := by
  refine ⟨rfl, ?_, rfl, rfl⟩
  unfold rgb_identity_permutation
  decide
